import Mathlib

/-
  Verification of the aggregation-and-chart-projection pipeline of dash1.py
  (obesity-risk dashboard).  The pandas/plotly operations used by the chart
  functions are shallowly embedded as executable Lean definitions over lists:
  a column is a `List` of cell values, a table a `List` of row structures,
  `Series.value_counts` / `groupby` / `pivot` become the corresponding list
  computations, and the one in-place mutation (the SMOKE recoding inside
  `create_grouped_bar`) is modelled by explicit state passing (the function
  returns the mutated table next to its aggregated output).

  Definitions come first, then the theorems about them.
-/

namespace Dash1

/-- Helper for `uniqueFirstSeen`: traverse the list, keeping each value the
first time it appears and skipping values already seen (the `seen`
accumulator). -/
def uniqueAux {α : Type} [DecidableEq α] (seen : List α) : List α → List α
  | [] => []
  | x :: xs => if x ∈ seen then uniqueAux seen xs else x :: uniqueAux (x :: seen) xs

/-- Distinct values of a list in order of first appearance.  This is the
order produced by `pandas.Series.unique()` and the key set produced by
`value_counts` / `groupby` before any sorting is applied. -/
def uniqueFirstSeen {α : Type} [DecidableEq α] (l : List α) : List α :=
  uniqueAux [] l

/-- Pairs (distinct value, its occurrence count), in first-seen order: the
raw content of `Series.value_counts()` before its sort by frequency. -/
def countPairs {α : Type} [DecidableEq α] (xs : List α) : List (α × Nat) :=
  (uniqueFirstSeen xs).map (fun a => (a, xs.count a))

/-- Embedding of `Series.value_counts()` (as used in
`plot_categorical_features`, src/dash1.py line 68): one row per distinct
value with its count, sorted by count in descending order; the sort is
stable, so ties stay in first-seen order. -/
def value_counts {α : Type} [DecidableEq α] (xs : List α) : List (α × Nat) :=
  (countPairs xs).insertionSort (fun p q => q.2 ≤ p.2)

/-- Embedding of `.sort_index()` on a value-counts result: rows reordered by
ascending key. -/
def sortIndex {α : Type} [LinearOrder α] (l : List (α × Nat)) : List (α × Nat) :=
  l.insertionSort (fun p q => p.1 ≤ q.1)

/-- Embedding of `df[column].value_counts().sort_index()` from
`plot_target_distribution` (src/dash1.py line 34): counts per distinct
label, rows in ascending label order. -/
def targetDistributionCounts {α : Type} [LinearOrder α] (xs : List α) : List (α × Nat) :=
  sortIndex (value_counts xs)

/-- Distinct values of a column in ascending order: the key order produced by
a pandas `groupby` (which sorts its group keys) and by `.sort_index()`. -/
def sortedKeys {α : Type} [LinearOrder α] (xs : List α) : List α :=
  (uniqueFirstSeen xs).insertionSort (fun a b => a ≤ b)

/-- One column of the loaded DataFrame, reduced to what `select_dtypes`
inspects: its name and whether its dtype is a numeric dtype. -/
structure Column where
  name : String
  isNumberDtype : Bool
deriving DecidableEq, Repr

/-- Embedding of `df.select_dtypes(exclude="number").columns` as used in
`plot_categorical_features` (src/dash1.py line 64). -/
def selectDtypesExcludeNumber (cols : List Column) : List Column :=
  cols.filter (fun c => !c.isNumberDtype)

/-- Embedding of `df.select_dtypes(include="number").columns` as used in
`plot_numerical_features` (src/dash1.py line 82). -/
def selectDtypesIncludeNumber (cols : List Column) : List Column :=
  cols.filter (fun c => c.isNumberDtype)

/-- Embedding of the module-level dashboard layout (src/dash1.py lines
273-330): the panels' chart functions are invoked one after another by the
`st.plotly_chart(...)` calls, with no surrounding error handling, so the
page shows the full list of charts only when every invocation succeeds, and
an exception raised inside any panel's chart function aborts the script at
that point.  Each list entry is the outcome of one panel invocation. -/
def renderLayout {χ : Type} : List (Except String χ) → Except String (List χ)
  | [] => Except.ok []
  | p :: ps =>
    match p with
    | Except.error e => Except.error e
    | Except.ok c =>
      match renderLayout ps with
      | Except.error e => Except.error e
      | Except.ok cs => Except.ok (c :: cs)

/-- A cell of the SMOKE column.  `str` is a raw text value as loaded from
the CSV, `num` a numeric code, `na` a missing value (pandas NaN, as produced
by `Series.map` for values absent from its dict). -/
inductive SmokeCell where
  | str : String → SmokeCell
  | num : ℕ → SmokeCell
  | na : SmokeCell
deriving DecidableEq, Repr

/-- Embedding of the dict mapping in
`df['SMOKE'].map({'yes': 1, 'no': 0})` (src/dash1.py line 230): the values
"yes" and "no" are replaced by their codes; every other value — including
the numeric codes produced by an earlier application of the same recoding,
and missing values — becomes NaN. -/
def recodeSmoke : SmokeCell → SmokeCell
  | SmokeCell.str s =>
    if s = "yes" then SmokeCell.num 1
    else if s = "no" then SmokeCell.num 0
    else SmokeCell.na
  | SmokeCell.num _ => SmokeCell.na
  | SmokeCell.na => SmokeCell.na

/-- One Record of the loaded Table, restricted to the columns read by the
chart functions verified here: the obesity label NObeyesdad, Gender, the
physical-activity column FAF, the alcohol column CALC and the SMOKE
column. -/
structure Row where
  nobeyesdad : String
  gender : String
  faf : ℚ
  calcCol : String
  smoke : SmokeCell
deriving DecidableEq, Repr

/-- Rewrite of the whole SMOKE column by a cell transformation, as done by
the in-place assignment `df['SMOKE'] = df['SMOKE'].map(...)`. -/
def updateSmoke (φ : SmokeCell → SmokeCell) (t : List Row) : List Row :=
  t.map (fun r => { r with smoke := φ r.smoke })

/-- The in-place SMOKE recoding statement of `create_grouped_bar`
(src/dash1.py line 230) applied to the shared Table. -/
def recodeTable (t : List Row) : List Row :=
  updateSmoke recodeSmoke t

/-- Numeric value of a SMOKE cell, when present: pandas `mean` uses the
numeric values and skips NaN. -/
def smokeVal : SmokeCell → Option ℚ
  | SmokeCell.num n => some (n : ℚ)
  | _ => none

/-- Embedding of pandas `mean` over the SMOKE cells of one group: the
arithmetic mean of the non-missing numeric values, NaN (modelled as `none`)
when every cell is missing. -/
def smokeMeanOfCells (cells : List SmokeCell) : Option ℚ :=
  let vals := cells.filterMap smokeVal
  if vals.length = 0 then none else some (vals.sum / (vals.length : ℚ))

/-- One AggregatedRow of `create_grouped_bar`: an obesity level together
with the group's mean of the recoded SMOKE column and its proportion of
rows whose CALC value equals "Frequently". -/
structure GroupedBarRow where
  level : String
  smokeMean : Option ℚ
  calcProp : ℚ
deriving DecidableEq, Repr

/-- Embedding of `create_grouped_bar` (src/dash1.py lines 227-257).  The
function first recodes the SMOKE column in place on the shared DataFrame
(`df['SMOKE'] = df['SMOKE'].map({'yes': 1, 'no': 0})`), then groups by
obesity level (groupby sorts its keys) and aggregates the mean of the
recoded SMOKE column and the mean of the indicator `CALC == 'Frequently'`.
The in-place mutation is made explicit: the first component of the result
is the mutated Table, the second the aggregated rows. -/
def create_grouped_bar (t : List Row) : List Row × List GroupedBarRow :=
  let t2 := recodeTable t
  (t2,
    (sortedKeys (t2.map (fun r => r.nobeyesdad))).map (fun g =>
      let rows := t2.filter (fun r => r.nobeyesdad = g)
      { level := g
        smokeMean := smokeMeanOfCells (rows.map (fun r => r.smoke))
        calcProp := ((rows.filter (fun r => r.calcCol = "Frequently")).length : ℚ) /
          ((rows.length : ℚ)) }))

/-- Embedding of the groupby-mean pattern
`df.groupby(groupColumn).agg({column: 'mean'})` used in `create_grouped_bar`
(src/dash1.py lines 232-235) for a numeric column: the group keys in sorted
order, each with the arithmetic mean of the column over the group's rows. -/
def meanByCategory {ρ σ : Type} [LinearOrder σ] (t : List ρ) (value : ρ → ℚ)
    (group : ρ → σ) : List (σ × ℚ) :=
  (sortedKeys (t.map group)).map (fun g =>
    let vals := (t.filter (fun r => group r = g)).map value
    (g, vals.sum / (vals.length : ℚ)))

/-- Helper for `kdeCurvesRun`: run the inner loop of
`plot_numerical_features_target` (src/dash1.py lines 167-185) over the
remaining target groups.  For each group the code takes the non-missing
feature values (`.dropna()`, line 168); when the group has more than one
observation (`if len(data) > 1`, line 169) it executes
`kde = gaussian_kde(data)` (line 170) — but dash1.py imports neither scipy
nor numpy, so `gaussian_kde` (and `np` on line 171) is an unbound name and
this branch raises NameError, aborting the function; a group with at most
one observation is skipped and the loop continues. -/
def kdeRunAux {ρ : Type} (t : List ρ) (feature : ρ → Option ℚ) (target : ρ → String) :
    List String → Except String (List (String × List ℚ × List ℚ))
  | [] => Except.ok []
  | g :: gs =>
    let data := (t.filter (fun r => target r = g)).filterMap feature
    if 1 < data.length then
      Except.error "NameError: gaussian_kde is not defined"
    else kdeRunAux t feature target gs

/-- Embedding of the KDE loop of `plot_numerical_features_target`
(src/dash1.py lines 159-185) for one numeric feature: iterate over the
values of the target column in first-seen order (`unique()`, line 159) and
run the per-group body.  The run returns the emitted density traces on
success — which can only be the empty list, since the emission branch
always raises NameError on the unbound `gaussian_kde` — or the raised
error. -/
def kdeCurvesRun {ρ : Type} (t : List ρ) (target : ρ → String)
    (feature : ρ → Option ℚ) : Except String (List (String × List ℚ × List ℚ)) :=
  kdeRunAux t feature target (uniqueFirstSeen (t.map target))

/-- Embedding of `df.groupby([keyA, keyB]).size().reset_index(name='count')`
(src/dash1.py lines 50, 115 and 213): one row per observed (keyA, keyB)
pair with its number of occurrences, rows sorted by the key pair (groupby
sorts its keys). -/
def countsByTwoKeys {ρ α β : Type} [LinearOrder α] [LinearOrder β] (t : List ρ)
    (keyA : ρ → α) (keyB : ρ → β) : List ((α × β) × ℕ) :=
  ((uniqueFirstSeen (t.map (fun r => (keyA r, keyB r)))).insertionSort
      (fun p q => p.1 < q.1 ∨ (p.1 = q.1 ∧ p.2 ≤ q.2))).map
    (fun k => (k, (t.filter (fun r => (keyA r, keyB r) = k)).length))

/-- Embedding of
`grouped.pivot(index=keyA, columns=keyB, values='count').fillna(0)`
(src/dash1.py line 116): a dense grid with one row per distinct keyA value
and one column per distinct keyB value (both sorted, as pandas pivot sorts
its index and columns); each entry holds the observed count of its key
pair, pairs never observed being zero-filled by `fillna(0)`. -/
def pivotFillZero {ρ α β : Type} [LinearOrder α] [LinearOrder β] (t : List ρ)
    (keyA : ρ → α) (keyB : ρ → β) : List (α × List (β × ℕ)) :=
  (sortedKeys (t.map keyA)).map (fun a =>
    (a, (sortedKeys (t.map keyB)).map (fun b =>
      (b, (t.filter (fun r => keyA r = a ∧ keyB r = b)).length))))

/-- Embedding of the color-assignment loops
`for i, t in enumerate(targets)` (src/dash1.py line 160) and
`for i, category in enumerate(pivot_df.columns)` (lines 119-125): the i-th
series value in the list receives the palette entry at index i modulo the
palette length. -/
def assignColors {σ : Type} (palette : List String) : ℕ → List σ → List (σ × String)
  | _, [] => []
  | i, v :: vs =>
    (v, palette.getD (i % palette.length) "") :: assignColors palette (i + 1) vs

/-- Color assignment of `plot_numerical_features_target` (src/dash1.py
lines 159-160): the distinct target values in first-seen order
(`Series.unique()`), the i-th paired with palette entry i modulo the
palette length. -/
def colorsNumericalTarget {σ : Type} [DecidableEq σ] (vals : List σ)
    (palette : List String) : List (σ × String) :=
  assignColors palette 0 (uniqueFirstSeen vals)

/-- Color assignment of `plot_categorical_features_target` (src/dash1.py
lines 114-126): the trace of the i-th pivot column — the distinct feature
values in sorted order, since pandas `pivot` sorts its columns — receives
palette entry i modulo the palette length. -/
def colorsCategoricalTarget {σ : Type} [LinearOrder σ] (vals : List σ)
    (palette : List String) : List (σ × String) :=
  assignColors palette 0 (sortedKeys vals)

/- ================= theorems ================= -/

theorem mem_uniqueAux {α : Type} [DecidableEq α] (a : α) :
    ∀ (l seen : List α), a ∈ uniqueAux seen l ↔ a ∈ l ∧ a ∉ seen
  | [], seen => by simp [uniqueAux]
  | x :: xs, seen => by
    rw [uniqueAux]
    by_cases hx : x ∈ seen
    · rw [if_pos hx, mem_uniqueAux a xs seen]
      constructor
      · rintro ⟨h1, h2⟩
        exact ⟨List.mem_cons_of_mem _ h1, h2⟩
      · rintro ⟨h1, h2⟩
        rcases List.mem_cons.mp h1 with h | h
        · exact absurd (h ▸ hx) h2
        · exact ⟨h, h2⟩
    · rw [if_neg hx]
      by_cases hax : a = x
      · subst hax
        simp [hx]
      · simp only [List.mem_cons, hax, false_or]
        rw [mem_uniqueAux a xs (x :: seen)]
        simp [hax]

theorem mem_uniqueFirstSeen {α : Type} [DecidableEq α] (a : α) (l : List α) :
    a ∈ uniqueFirstSeen l ↔ a ∈ l := by
  rw [uniqueFirstSeen, mem_uniqueAux]
  simp

theorem nodup_uniqueAux {α : Type} [DecidableEq α] :
    ∀ (l seen : List α), (uniqueAux seen l).Nodup
  | [], seen => by simp [uniqueAux]
  | x :: xs, seen => by
    rw [uniqueAux]
    by_cases hx : x ∈ seen
    · rw [if_pos hx]
      exact nodup_uniqueAux xs seen
    · rw [if_neg hx]
      refine List.nodup_cons.mpr ⟨?_, nodup_uniqueAux xs (x :: seen)⟩
      intro hmem
      have := (mem_uniqueAux x xs (x :: seen)).mp hmem
      exact this.2 (List.mem_cons_self x seen)

theorem nodup_uniqueFirstSeen {α : Type} [DecidableEq α] (l : List α) :
    (uniqueFirstSeen l).Nodup :=
  nodup_uniqueAux l []

theorem count_add_length_filter_ne {α : Type} [DecidableEq α] (x : α) (xs : List α) :
    xs.count x + (xs.filter (fun y => y ≠ x)).length = xs.length := by
  induction xs with
  | nil => rfl
  | cons y ys ih =>
    by_cases h : y = x
    · subst h
      rw [List.count_cons_self, List.filter_cons_of_neg (by simp), List.length_cons]
      omega
    · rw [List.count_cons_of_ne (fun hh => h hh.symm),
        List.filter_cons_of_pos (by simp [h]), List.length_cons, List.length_cons]
      omega

theorem sum_counts_of_nodup {α : Type} [DecidableEq α] :
    ∀ (u l : List α), u.Nodup → (∀ a, a ∈ u ↔ a ∈ l) →
      (u.map (fun a => l.count a)).sum = l.length
  | [], l, _, hmem => by
    have hl : l = [] := by
      refine List.eq_nil_iff_forall_not_mem.mpr (fun a ha => ?_)
      exact List.not_mem_nil a ((hmem a).mpr ha)
    simp [hl]
  | x :: u1, l, hnd, hmem => by
    have hxu : x ∉ u1 := (List.nodup_cons.mp hnd).1
    have hnd1 : u1.Nodup := (List.nodup_cons.mp hnd).2
    have hmem1 : ∀ a, a ∈ u1 ↔ a ∈ l.filter (fun y => y ≠ x) := by
      intro a
      constructor
      · intro ha
        have hne : a ≠ x := fun h => hxu (h ▸ ha)
        have hal : a ∈ l := (hmem a).mp (List.mem_cons_of_mem _ ha)
        simp [List.mem_filter, hal, hne]
      · intro ha
        have := List.mem_filter.mp ha
        have hne : a ≠ x := by simpa using this.2
        rcases List.mem_cons.mp ((hmem a).mpr this.1) with h | h
        · exact absurd h hne
        · exact h
    have hcongr : u1.map (fun a => l.count a) =
        u1.map (fun a => (l.filter (fun y => y ≠ x)).count a) := by
      apply List.map_congr_left
      intro a ha
      have hne : a ≠ x := fun h => hxu (h ▸ ha)
      exact (List.count_filter (by simp [hne])).symm
    rw [List.map_cons, List.sum_cons, hcongr,
      sum_counts_of_nodup u1 (l.filter (fun y => y ≠ x)) hnd1 hmem1]
    have := count_add_length_filter_ne x l
    omega

theorem value_counts_perm_countPairs {α : Type} [DecidableEq α] (xs : List α) :
    (value_counts xs).Perm (countPairs xs) :=
  List.perm_insertionSort _ _

theorem targetDistributionCounts_perm_countPairs {α : Type} [LinearOrder α] (xs : List α) :
    (targetDistributionCounts xs).Perm (countPairs xs) :=
  (List.perm_insertionSort _ _).trans (value_counts_perm_countPairs xs)

theorem countsByCategory_spec_of_perm {α : Type} [DecidableEq α] {xs : List α}
    {l : List (α × Nat)} (h : l.Perm (countPairs xs)) :
    (l.map Prod.fst).Nodup ∧ (∀ a, a ∈ l.map Prod.fst ↔ a ∈ xs) ∧
      (l.map Prod.snd).sum = xs.length := by
  have hfst : (l.map Prod.fst).Perm (uniqueFirstSeen xs) := by
    have := h.map Prod.fst
    simpa [countPairs, List.map_map, Function.comp_def] using this
  have hsnd : (l.map Prod.snd).Perm ((uniqueFirstSeen xs).map (fun a => xs.count a)) := by
    have := h.map Prod.snd
    simpa [countPairs, List.map_map, Function.comp_def] using this
  refine ⟨hfst.nodup_iff.mpr (nodup_uniqueFirstSeen xs), ?_, ?_⟩
  · intro a
    rw [hfst.mem_iff, mem_uniqueFirstSeen]
  · rw [hsnd.sum_eq,
      sum_counts_of_nodup (uniqueFirstSeen xs) xs (nodup_uniqueFirstSeen xs)
        (fun a => mem_uniqueFirstSeen a xs)]

/-- C1: for every Table and categorical column, the counts produced by
`value_counts` — both as used in `plot_categorical_features` and as used
(with `.sort_index()`) in `plot_target_distribution` — have one row per
distinct value of the column, each distinct value appearing exactly once,
and the counts sum to the number of rows. -/
theorem C1_countsByCategory_partition {α : Type} [LinearOrder α] (xs : List α) :
    (((value_counts xs).map Prod.fst).Nodup ∧
      (∀ a, a ∈ (value_counts xs).map Prod.fst ↔ a ∈ xs) ∧
      ((value_counts xs).map Prod.snd).sum = xs.length) ∧
    (((targetDistributionCounts xs).map Prod.fst).Nodup ∧
      (∀ a, a ∈ (targetDistributionCounts xs).map Prod.fst ↔ a ∈ xs) ∧
      ((targetDistributionCounts xs).map Prod.snd).sum = xs.length) :=
  ⟨countsByCategory_spec_of_perm (value_counts_perm_countPairs xs),
   countsByCategory_spec_of_perm (targetDistributionCounts_perm_countPairs xs)⟩

/-- C8 counterexample: on the column [0, 1, 1], `value_counts` (the order
used by `plot_categorical_features`) returns keys [1, 0] — descending count
order — which is neither the ascending label order nor the first-seen order,
and differs from the `value_counts().sort_index()` order used by
`plot_target_distribution`.  So the two realisations do not use one and the
same of the two declared orders. -/
theorem C8_counterexample :
    ((value_counts [0, 1, 1]).map Prod.fst ≠ sortedKeys [0, 1, 1] ∧
      (value_counts [0, 1, 1]).map Prod.fst ≠ uniqueFirstSeen ([0, 1, 1] : List ℕ)) ∧
    value_counts ([0, 1, 1] : List ℕ) ≠ targetDistributionCounts [0, 1, 1] := by
  decide

/-- C8 amended: each realisation of countsByCategory has its own stable,
deterministic order, but the two differ: `plot_target_distribution`
(`value_counts().sort_index()`) returns rows in ascending label order, while
`plot_categorical_features` (`value_counts()`) returns rows in descending
count order; the two outputs are always permutations of each other. -/
theorem C8_countsByCategory_orders {α : Type} [LinearOrder α] (xs : List α) :
    List.Sorted (fun p q : α × ℕ => p.1 ≤ q.1) (targetDistributionCounts xs) ∧
    List.Sorted (fun p q : α × ℕ => q.2 ≤ p.2) (value_counts xs) ∧
    (targetDistributionCounts xs).Perm (value_counts xs) := by
  refine ⟨?_, ?_, List.perm_insertionSort _ _⟩
  · haveI : IsTotal (α × ℕ) (fun p q => p.1 ≤ q.1) := ⟨fun a b => le_total a.1 b.1⟩
    haveI : IsTrans (α × ℕ) (fun p q => p.1 ≤ q.1) := ⟨fun a b c h1 h2 => le_trans h1 h2⟩
    exact List.sorted_insertionSort _ _
  · haveI : IsTotal (α × ℕ) (fun p q => q.2 ≤ p.2) := ⟨fun a b => le_total b.2 a.2⟩
    haveI : IsTrans (α × ℕ) (fun p q => q.2 ≤ p.2) := ⟨fun a b c h1 h2 => le_trans h2 h1⟩
    exact List.sorted_insertionSort _ _

/-- C10: the columns selected as categorical (dtype excludes "number") and
as numerical (dtype includes "number") are disjoint and together cover every
column of the Table, so each column is classified as exactly one of the two
kinds and none is skipped by the per-feature panels. -/
theorem C10_feature_partition (cols : List Column) :
    (∀ c, c ∈ cols ↔
      (c ∈ selectDtypesExcludeNumber cols ∨ c ∈ selectDtypesIncludeNumber cols)) ∧
    (∀ c, ¬(c ∈ selectDtypesExcludeNumber cols ∧ c ∈ selectDtypesIncludeNumber cols)) ∧
    (selectDtypesExcludeNumber cols).length + (selectDtypesIncludeNumber cols).length =
      cols.length := by
  refine ⟨?_, ?_, ?_⟩
  · intro c
    constructor
    · intro hc
      by_cases hnum : c.isNumberDtype
      · exact Or.inr (List.mem_filter.mpr ⟨hc, by simp [hnum]⟩)
      · exact Or.inl (List.mem_filter.mpr ⟨hc, by simp [hnum]⟩)
    · rintro (h | h) <;> exact (List.mem_filter.mp h).1
  · rintro c ⟨h1, h2⟩
    have b1 := (List.mem_filter.mp h1).2
    have b2 := (List.mem_filter.mp h2).2
    simp only [Bool.not_eq_true'] at b1
    exact Bool.false_ne_true (b1 ▸ b2)
  · induction cols with
    | nil => rfl
    | cons c cs ih =>
      simp only [selectDtypesExcludeNumber, selectDtypesIncludeNumber] at ih ⊢
      rw [List.filter_cons, List.filter_cons]
      by_cases hnum : c.isNumberDtype <;> simp [hnum] <;> omega

/-- C3 counterexample: a layout whose first panel invocation raises (as the
calls at src/dash1.py lines 325 and 329 in fact do, since they pass no `df`
to functions whose first parameter has no default) yields a crashed page:
the sibling panel that would have succeeded is never rendered. -/
theorem C3_counterexample :
    renderLayout
        [Except.error "TypeError: plot_categorical_features_target missing df",
         Except.ok (0 : Nat)] =
      Except.error "TypeError: plot_categorical_features_target missing df" := rfl

/-- C3 amended: panel invocations at the module-level layout are NOT
isolated: if any panel's chart function fails, the whole page fails (no
chart after the failing one is rendered), and the page renders fully exactly
when every panel function succeeds. -/
theorem C3_layout_not_isolated {χ : Type} (ps qs : List (Except String χ)) (e : String) :
    (∃ e2, renderLayout (ps ++ Except.error e :: qs) = Except.error e2) ∧
    (∀ cs : List χ, renderLayout (cs.map Except.ok) = Except.ok cs) := by
  constructor
  · induction ps with
    | nil => exact ⟨e, rfl⟩
    | cons p ps ih =>
      match p with
      | Except.error e3 => exact ⟨e3, rfl⟩
      | Except.ok c =>
        obtain ⟨e2, h⟩ := ih
        refine ⟨e2, ?_⟩
        simp only [List.cons_append, renderLayout, List.append_eq, h]
  · intro cs
    induction cs with
    | nil => rfl
    | cons c cs ih =>
      simp only [List.map_cons, renderLayout, ih]

theorem mem_sortedKeys {α : Type} [LinearOrder α] (a : α) (xs : List α) :
    a ∈ sortedKeys xs ↔ a ∈ xs := by
  rw [sortedKeys, (List.perm_insertionSort _ _).mem_iff, mem_uniqueFirstSeen]

theorem recodeSmoke_recodeSmoke (c : SmokeCell) :
    recodeSmoke (recodeSmoke c) = SmokeCell.na := by
  cases c with
  | str s =>
    by_cases h1 : s = "yes" <;> by_cases h2 : s = "no" <;> simp [recodeSmoke, h1, h2]
  | num n => rfl
  | na => rfl

theorem updateSmoke_length (φ : SmokeCell → SmokeCell) (t : List Row) :
    (updateSmoke φ t).length = t.length := by
  simp [updateSmoke]

theorem updateSmoke_map_nobeyesdad (φ : SmokeCell → SmokeCell) (t : List Row) :
    (updateSmoke φ t).map (fun r => r.nobeyesdad) = t.map (fun r => r.nobeyesdad) := by
  induction t with
  | nil => rfl
  | cons r t ih =>
    simp only [updateSmoke, List.map_cons] at ih ⊢
    rw [ih]

theorem updateSmoke_map_smoke (φ : SmokeCell → SmokeCell) (t : List Row) :
    (updateSmoke φ t).map (fun r => r.smoke) = (t.map (fun r => r.smoke)).map φ := by
  induction t with
  | nil => rfl
  | cons r t ih =>
    simp only [updateSmoke, List.map_cons] at ih ⊢
    rw [ih]

theorem updateSmoke_filter_nobeyesdad (φ : SmokeCell → SmokeCell) (t : List Row)
    (g : String) :
    (updateSmoke φ t).filter (fun r => r.nobeyesdad = g) =
      updateSmoke φ (t.filter (fun r => r.nobeyesdad = g)) := by
  induction t with
  | nil => rfl
  | cons r t ih =>
    simp only [updateSmoke, List.map_cons, List.filter_cons] at ih ⊢
    by_cases h : r.nobeyesdad = g <;> simp [h, ih]

theorem updateSmoke_filter_calcCol (φ : SmokeCell → SmokeCell) (t : List Row) :
    (updateSmoke φ t).filter (fun r => r.calcCol = "Frequently") =
      updateSmoke φ (t.filter (fun r => r.calcCol = "Frequently")) := by
  induction t with
  | nil => rfl
  | cons r t ih =>
    simp only [updateSmoke, List.map_cons, List.filter_cons] at ih ⊢
    by_cases h : r.calcCol = "Frequently" <;> simp [h, ih]

theorem updateSmoke_updateSmoke (φ ψ : SmokeCell → SmokeCell) (t : List Row) :
    updateSmoke φ (updateSmoke ψ t) = updateSmoke (fun c => φ (ψ c)) t := by
  induction t with
  | nil => rfl
  | cons r t ih =>
    simp only [updateSmoke, List.map_cons] at ih ⊢
    rw [ih]

theorem filterMap_eq_nil_of_none {β γ : Type} (f : β → Option γ) :
    ∀ (l : List β), (∀ c ∈ l, f c = none) → l.filterMap f = []
  | [], _ => rfl
  | c :: cs, h => by
    rw [List.filterMap_cons, h c (List.mem_cons_self c cs),
      filterMap_eq_nil_of_none f cs (fun x hx => h x (List.mem_cons_of_mem _ hx))]

/-- C2 counterexample: on a one-row Table whose SMOKE value is the text
"yes", the first call of `create_grouped_bar` reports a SMOKE mean of 1, but
a second call on the Table mutated by the first maps the numeric code back
through the text dict, turning it into NaN, so the second aggregated output
differs from the first: the recoding is not idempotent. -/
theorem C2_counterexample :
    (create_grouped_bar ((create_grouped_bar
        [{ nobeyesdad := "Normal_Weight", gender := "Male", faf := 0,
           calcCol := "no", smoke := SmokeCell.str "yes" }]).1)).2 ≠
      (create_grouped_bar
        [{ nobeyesdad := "Normal_Weight", gender := "Male", faf := 0,
           calcCol := "no", smoke := SmokeCell.str "yes" }]).2 := by
  decide

/-- C2 amended: `create_grouped_bar` is deterministic but not idempotent in
its effect on the shared Table: calling it a second time on the Table
mutated by the first call maps every already-recoded SMOKE code to missing,
so the second call returns the first call's aggregated rows with every SMOKE
mean replaced by missing (levels and CALC proportions unchanged). -/
theorem C2_second_call_loses_smoke_means (t : List Row) :
    (create_grouped_bar ((create_grouped_bar t).1)).2 =
      ((create_grouped_bar t).2).map (fun gr => { gr with smokeMean := none }) := by
  simp only [create_grouped_bar, recodeTable]
  rw [updateSmoke_updateSmoke,
    updateSmoke_map_nobeyesdad (fun c => recodeSmoke (recodeSmoke c)) t,
    updateSmoke_map_nobeyesdad recodeSmoke t, List.map_map]
  apply List.map_congr_left
  intro g hg
  rw [Function.comp_apply]
  rw [updateSmoke_filter_nobeyesdad (fun c => recodeSmoke (recodeSmoke c)) t g,
    updateSmoke_filter_nobeyesdad recodeSmoke t g]
  have hmean :
      smokeMeanOfCells ((updateSmoke (fun c => recodeSmoke (recodeSmoke c))
        (t.filter (fun r => r.nobeyesdad = g))).map (fun r => r.smoke)) = none := by
    rw [updateSmoke_map_smoke]
    have hnil : (((t.filter (fun r => r.nobeyesdad = g)).map (fun r => r.smoke)).map
        (fun c => recodeSmoke (recodeSmoke c))).filterMap smokeVal = [] := by
      apply filterMap_eq_nil_of_none
      intro c hc
      rcases List.mem_map.mp hc with ⟨c0, hmem0, hc0⟩
      subst hc0
      simp [recodeSmoke_recodeSmoke, smokeVal]
    simp only [smokeMeanOfCells]
    rw [hnil]
    rfl
  rw [hmean]
  rw [updateSmoke_filter_calcCol, updateSmoke_filter_calcCol,
    updateSmoke_length, updateSmoke_length, updateSmoke_length, updateSmoke_length]

theorem filterMap_smokeVal_props :
    ∀ (cells : List SmokeCell),
      (∀ c ∈ cells, c = SmokeCell.num 1 ∨ c = SmokeCell.num 0) →
      (cells.filterMap smokeVal).length = cells.length ∧
      (cells.filterMap smokeVal).sum = (cells.count (SmokeCell.num 1) : ℚ)
  | [], _ => ⟨rfl, by simp⟩
  | c :: cs, h => by
    obtain ⟨ih1, ih2⟩ :=
      filterMap_smokeVal_props cs (fun x hx => h x (List.mem_cons_of_mem _ hx))
    rcases h c (List.mem_cons_self c cs) with h1 | h1 <;> subst h1 <;>
      refine ⟨?_, ?_⟩ <;>
      simp [List.filterMap_cons, smokeVal, List.count_cons, ih1, ih2] <;>
      push_cast <;> ring

/-- C4: in `create_grouped_bar`, on a Table whose SMOKE column holds the
schema values "yes"/"no", every obesity level observed in the Table gets an
aggregated row (a group with zero matching rows is reported with proportion
0.0, not omitted), and both realised proportions — the mean of the recoded
SMOKE flag and the mean of the CALC == "Frequently" indicator — lie in
[0, 1], are 0.0 on groups with no matching row, and are 1.0 on groups where
the predicate holds on every row. -/
theorem C4_proportionMatching (t : List Row)
    (hsm : ∀ r ∈ t, r.smoke = SmokeCell.str "yes" ∨ r.smoke = SmokeCell.str "no") :
    (∀ g, (∃ r ∈ t, r.nobeyesdad = g) →
      ∃ gr ∈ (create_grouped_bar t).2, gr.level = g) ∧
    (∀ gr ∈ (create_grouped_bar t).2,
      (0 ≤ gr.calcProp ∧ gr.calcProp ≤ 1) ∧
      ((∀ r ∈ t, r.nobeyesdad = gr.level → r.calcCol ≠ "Frequently") →
        gr.calcProp = 0) ∧
      ((∀ r ∈ t, r.nobeyesdad = gr.level → r.calcCol = "Frequently") →
        gr.calcProp = 1) ∧
      (∃ p, gr.smokeMean = some p ∧ 0 ≤ p ∧ p ≤ 1 ∧
        ((∀ r ∈ t, r.nobeyesdad = gr.level → r.smoke ≠ SmokeCell.str "yes") →
          p = 0) ∧
        ((∀ r ∈ t, r.nobeyesdad = gr.level → r.smoke = SmokeCell.str "yes") →
          p = 1))) := by
  constructor
  · intro g hg
    obtain ⟨r, hr, hrg⟩ := hg
    have hkey : g ∈ sortedKeys ((recodeTable t).map (fun r => r.nobeyesdad)) := by
      rw [mem_sortedKeys, recodeTable, updateSmoke_map_nobeyesdad]
      exact List.mem_map.mpr ⟨r, hr, hrg⟩
    refine ⟨_, List.mem_map_of_mem _ hkey, rfl⟩
  · intro gr hgr
    simp only [create_grouped_bar] at hgr
    obtain ⟨g, hgkey, hgr⟩ := List.mem_map.mp hgr
    subst hgr
    have hw : ∃ r ∈ t, r.nobeyesdad = g := by
      rw [mem_sortedKeys, recodeTable, updateSmoke_map_nobeyesdad] at hgkey
      exact List.mem_map.mp hgkey
    set w := t.filter (fun r => r.nobeyesdad = g) with hw_def
    have hwlen : 0 < w.length := by
      obtain ⟨r, hr, hrg⟩ := hw
      have : r ∈ w := List.mem_filter.mpr ⟨hr, by simp [hrg]⟩
      exact List.length_pos.mpr (fun hnil => by simp [hnil] at this)
    have hmemw : ∀ r ∈ w, r ∈ t ∧ r.nobeyesdad = g := by
      intro r hr
      have := List.mem_filter.mp hr
      exact ⟨this.1, by simpa using this.2⟩
    have hfilt : (recodeTable t).filter (fun r => r.nobeyesdad = g) =
        updateSmoke recodeSmoke w := by
      rw [recodeTable, updateSmoke_filter_nobeyesdad]
    constructor
    · -- calcProp bounds
      constructor
      · apply div_nonneg <;> positivity
      · rw [div_le_one (by
          rw [hfilt, updateSmoke_length]
          exact_mod_cast hwlen)]
        exact_mod_cast List.length_filter_le _ _
    refine ⟨?_, ?_, ?_⟩
    · -- no Frequently row in the group: proportion 0
      intro hnone
      have : ((recodeTable t).filter (fun r => r.nobeyesdad = g)).filter
          (fun r => r.calcCol = "Frequently") = [] := by
        rw [hfilt, updateSmoke_filter_calcCol]
        have : w.filter (fun r => r.calcCol = "Frequently") = [] := by
          rw [List.filter_eq_nil_iff]
          intro r hr
          obtain ⟨hrt, hrg⟩ := hmemw r hr
          simp [hnone r hrt hrg]
        rw [this]
        rfl
      rw [this]
      simp
    · -- every row Frequently: proportion 1
      intro hall
      have heq : ((recodeTable t).filter (fun r => r.nobeyesdad = g)).filter
          (fun r => r.calcCol = "Frequently") =
          (recodeTable t).filter (fun r => r.nobeyesdad = g) := by
        rw [List.filter_eq_self]
        intro r hr
        rw [hfilt] at hr
        rcases List.mem_map.mp hr with ⟨r0, hr0, hrr0⟩
        obtain ⟨hrt, hrg⟩ := hmemw r0 hr0
        subst hrr0
        simp [hall r0 hrt hrg]
      rw [heq]
      apply div_self
      have : 0 < ((recodeTable t).filter (fun r => r.nobeyesdad = g)).length := by
        rw [hfilt, updateSmoke_length]
        exact hwlen
      positivity
    · -- smoke mean
      have hcells : ((recodeTable t).filter (fun r => r.nobeyesdad = g)).map
          (fun r => r.smoke) = (w.map (fun r => r.smoke)).map recodeSmoke := by
        rw [hfilt, updateSmoke_map_smoke]
      have hyn : ∀ c ∈ (w.map (fun r => r.smoke)).map recodeSmoke,
          c = SmokeCell.num 1 ∨ c = SmokeCell.num 0 := by
        intro c hc
        rcases List.mem_map.mp hc with ⟨c0, hc0, hcc0⟩
        rcases List.mem_map.mp hc0 with ⟨r0, hr0, hrc0⟩
        obtain ⟨hrt, _⟩ := hmemw r0 hr0
        rcases hsm r0 hrt with h | h <;>
          rw [← hcc0, ← hrc0, h] <;> simp [recodeSmoke]
      obtain ⟨hlen, hsum⟩ := filterMap_smokeVal_props _ hyn
      have hlenw : ((w.map (fun r => r.smoke)).map recodeSmoke).length = w.length := by
        simp
      rw [hcells]
      refine ⟨((((w.map (fun r => r.smoke)).map recodeSmoke).count (SmokeCell.num 1) : ℚ) /
          ((w.length : ℚ))), ?_, ?_, ?_, ?_, ?_⟩
      · simp only [smokeMeanOfCells]
        rw [if_neg (by rw [hlen, hlenw]; omega), hsum, hlen, hlenw]
      · positivity
      · rw [div_le_one (by exact_mod_cast hwlen)]
        have := List.count_le_length (SmokeCell.num 1)
          ((w.map (fun r => r.smoke)).map recodeSmoke)
        rw [hlenw] at this
        exact_mod_cast this
      · intro hnoyes
        have hzero : ((w.map (fun r => r.smoke)).map recodeSmoke).count
            (SmokeCell.num 1) = 0 := by
          rw [List.count_eq_zero]
          intro hmem1
          rcases List.mem_map.mp hmem1 with ⟨c0, hc0, hcc0⟩
          rcases List.mem_map.mp hc0 with ⟨r0, hr0, hrc0⟩
          obtain ⟨hrt, hrg⟩ := hmemw r0 hr0
          rcases hsm r0 hrt with h | h
          · exact hnoyes r0 hrt hrg h
          · rw [← hrc0, h] at hcc0
            simp [recodeSmoke] at hcc0
        rw [hzero]
        simp
      · intro hallyes
        have hcount : ((w.map (fun r => r.smoke)).map recodeSmoke).count
            (SmokeCell.num 1) = ((w.map (fun r => r.smoke)).map recodeSmoke).length := by
          rw [List.count_eq_length]
          intro c hc
          rcases List.mem_map.mp hc with ⟨c0, hc0, hcc0⟩
          rcases List.mem_map.mp hc0 with ⟨r0, hr0, hrc0⟩
          obtain ⟨hrt, hrg⟩ := hmemw r0 hr0
          rw [← hcc0, ← hrc0, hallyes r0 hrt hrg]
          simp [recodeSmoke]
        rw [hcount, hlenw]
        apply div_self
        have : (0 : ℚ) < (w.length : ℚ) := by exact_mod_cast hwlen
        positivity

/-- C5: the groupby-mean of `create_grouped_bar`, embedded generically as
`meanByCategory`: a group consisting of a single row gets exactly that
row's value as its mean, and every output row belongs to a group observed
in the Table, so groups with zero members produce no row. -/
theorem C5_meanByCategory {ρ σ : Type} [LinearOrder σ] (t : List ρ) (value : ρ → ℚ)
    (group : ρ → σ) :
    (∀ g r0, t.filter (fun r => group r = g) = [r0] →
      (g, value r0) ∈ meanByCategory t value group) ∧
    (∀ g m, (g, m) ∈ meanByCategory t value group → ∃ r ∈ t, group r = g) := by
  constructor
  · intro g r0 hfe
    have hr0 : r0 ∈ t.filter (fun r => group r = g) := by
      rw [hfe]
      exact List.mem_cons_self r0 []
    have hr0t : r0 ∈ t := (List.mem_filter.mp hr0).1
    have hr0g : group r0 = g := by simpa using (List.mem_filter.mp hr0).2
    have hkey : g ∈ sortedKeys (t.map group) := by
      rw [mem_sortedKeys]
      exact List.mem_map.mpr ⟨r0, hr0t, hr0g⟩
    rw [meanByCategory]
    refine List.mem_map.mpr ⟨g, hkey, ?_⟩
    show (g, ((t.filter (fun r => group r = g)).map value).sum /
        ((((t.filter (fun r => group r = g)).map value).length : ℚ))) = (g, value r0)
    rw [hfe]
    simp
  · intro g m hm
    rw [meanByCategory] at hm
    rcases List.mem_map.mp hm with ⟨g2, hg2, heq⟩
    have hgg : g2 = g := congrArg Prod.fst heq
    subst hgg
    rw [mem_sortedKeys] at hg2
    exact List.mem_map.mp hg2

/-- C4 witness: on the one-row Table with label "A", CALC "Frequently" and
SMOKE "yes", the aggregated row has its CALC proportion inside [0, 1]. -/
theorem C4_witness :
    0 ≤ ({ level := "A", smokeMean := some 1, calcProp := 1 } : GroupedBarRow).calcProp ∧
    ({ level := "A", smokeMean := some 1, calcProp := 1 } : GroupedBarRow).calcProp ≤ 1 :=
  ((C4_proportionMatching
      [{ nobeyesdad := "A", gender := "M", faf := 0, calcCol := "Frequently",
         smoke := SmokeCell.str "yes" }] (by decide)).2
    { level := "A", smokeMean := some 1, calcProp := 1 }
    (by
      have h : (create_grouped_bar
          [{ nobeyesdad := "A", gender := "M", faf := 0, calcCol := "Frequently",
             smoke := SmokeCell.str "yes" }]).2 =
          [{ level := "A", smokeMean := some 1, calcProp := 1 }] := by
        norm_num [create_grouped_bar, recodeTable, updateSmoke, sortedKeys,
          uniqueFirstSeen, uniqueAux, smokeMeanOfCells, smokeVal, recodeSmoke,
          List.insertionSort, List.orderedInsert, List.filterMap_cons, Function.comp]
        exact fun h => Option.noConfusion h
      rw [h]
      exact List.mem_cons_self _ _)).1

/-- C5 witness: on the spec's scenario Table (labels coded 0 and 1), the
group 1 consists of the single row (1, 25) and its mean is exactly 25. -/
theorem C5_witness :
    ((1 : ℕ), (25 : ℚ)) ∈
      meanByCategory [((0 : ℕ), (20 : ℚ)), (0, 30), (1, 25)]
        Prod.snd Prod.fst :=
  (C5_meanByCategory [(0, 20), (0, 30), (1, 25)] Prod.snd Prod.fst).1
    1 (1, 25) (by decide)

theorem kdeRunAux_cases {ρ : Type} (t : List ρ) (feature : ρ → Option ℚ)
    (target : ρ → String) :
    ∀ gs : List String,
      ((∃ g ∈ gs, 1 < ((t.filter (fun r => target r = g)).filterMap feature).length) →
        kdeRunAux t feature target gs =
          Except.error "NameError: gaussian_kde is not defined") ∧
      ((∀ g ∈ gs, ((t.filter (fun r => target r = g)).filterMap feature).length ≤ 1) →
        kdeRunAux t feature target gs = Except.ok [])
  | [] => by
    constructor
    · rintro ⟨g, hg, _⟩
      exact absurd hg (List.not_mem_nil g)
    · intro _
      rfl
  | g :: gs => by
    obtain ⟨ih1, ih2⟩ := kdeRunAux_cases t feature target gs
    by_cases h : 1 < ((t.filter (fun r => target r = g)).filterMap feature).length
    · constructor
      · intro _
        simp only [kdeRunAux, if_pos h]
      · intro hall
        exact absurd (hall g (List.mem_cons_self g gs)) (by omega)
    · constructor
      · rintro ⟨g0, hg0, hlen0⟩
        rcases List.mem_cons.mp hg0 with hgg | hgg
        · exact absurd (hgg ▸ hlen0) h
        · simp only [kdeRunAux, if_neg h]
          exact ih1 ⟨g0, hgg, hlen0⟩
      · intro hall
        simp only [kdeRunAux, if_neg h]
        exact ih2 (fun g0 hg0 => hall g0 (List.mem_cons_of_mem _ hg0))

/-- C6: contrary to the claim, `plot_numerical_features_target` can never
emit a density curve: dash1.py imports neither scipy nor numpy, so the
emission branch taken for any group with at least 2 non-missing
observations raises NameError on the unbound `gaussian_kde` and aborts the
function; only when every group has at most one observation does the loop
complete, and then it emits no curve at all.  In particular the run on the
two-observation group "A" (values 0 and 1) raises the NameError. -/
theorem C6_kde_raises_name_error {ρ : Type} (t : List ρ) (target : ρ → String)
    (feature : ρ → Option ℚ) :
    ((∃ g ∈ uniqueFirstSeen (t.map target),
        1 < ((t.filter (fun r => target r = g)).filterMap feature).length) →
      kdeCurvesRun t target feature =
        Except.error "NameError: gaussian_kde is not defined") ∧
    ((∀ g ∈ uniqueFirstSeen (t.map target),
        ((t.filter (fun r => target r = g)).filterMap feature).length ≤ 1) →
      kdeCurvesRun t target feature = Except.ok []) ∧
    kdeCurvesRun [(0 : ℚ), 1] (fun _ => "A") some =
      Except.error "NameError: gaussian_kde is not defined" := by
  obtain ⟨h1, h2⟩ := kdeRunAux_cases t feature target (uniqueFirstSeen (t.map target))
  exact ⟨h1, h2, rfl⟩

/-- C7: the groupby-size cross-tabulation used by `plot_faf_stacked` and
`create_funnel_chart` returns exactly one row per observed (keyA, keyB)
pair — keys are distinct, and a pair appears iff some Record carries it —
each with its positive occurrence count (pairs with zero occurrences are
omitted), while the pivot of `plot_categorical_features_target` produces
the dense grid over all (distinct keyA, distinct keyB) combinations, with
never-observed pairs zero-filled. -/
theorem C7_countsByTwoKeys {ρ α β : Type} [LinearOrder α] [LinearOrder β]
    (t : List ρ) (keyA : ρ → α) (keyB : ρ → β) :
    (((countsByTwoKeys t keyA keyB).map Prod.fst).Nodup ∧
     (∀ k, k ∈ (countsByTwoKeys t keyA keyB).map Prod.fst ↔
        ∃ r ∈ t, (keyA r, keyB r) = k) ∧
     (∀ k n, (k, n) ∈ countsByTwoKeys t keyA keyB →
        n = (t.filter (fun r => (keyA r, keyB r) = k)).length ∧ 0 < n)) ∧
    ((pivotFillZero t keyA keyB).map Prod.fst = sortedKeys (t.map keyA) ∧
     (∀ a cols, (a, cols) ∈ pivotFillZero t keyA keyB →
        cols.map Prod.fst = sortedKeys (t.map keyB) ∧
        ∀ b n, (b, n) ∈ cols →
          n = (t.filter (fun r => keyA r = a ∧ keyB r = b)).length ∧
          ((¬ ∃ r ∈ t, keyA r = a ∧ keyB r = b) → n = 0))) := by
  have hfst : (countsByTwoKeys t keyA keyB).map Prod.fst =
      (uniqueFirstSeen (t.map (fun r => (keyA r, keyB r)))).insertionSort
        (fun p q => p.1 < q.1 ∨ (p.1 = q.1 ∧ p.2 ≤ q.2)) := by
    simp [countsByTwoKeys, List.map_map, Function.comp_def]
  have hmemS : ∀ k, k ∈ (uniqueFirstSeen (t.map (fun r => (keyA r, keyB r)))).insertionSort
        (fun p q => p.1 < q.1 ∨ (p.1 = q.1 ∧ p.2 ≤ q.2)) ↔
      ∃ r ∈ t, (keyA r, keyB r) = k := by
    intro k
    rw [(List.perm_insertionSort _ _).mem_iff, mem_uniqueFirstSeen, List.mem_map]
  refine ⟨⟨?_, ?_, ?_⟩, ?_, ?_⟩
  · rw [hfst]
    exact (List.perm_insertionSort _ _).nodup_iff.mpr (nodup_uniqueFirstSeen _)
  · intro k
    rw [hfst, hmemS]
  · intro k n hk
    rcases List.mem_map.mp hk with ⟨k0, hk0, heq⟩
    have hkk : k0 = k := congrArg Prod.fst heq
    subst hkk
    have hn : n = (t.filter (fun r => (keyA r, keyB r) = k0)).length :=
      (congrArg Prod.snd heq).symm
    refine ⟨hn, ?_⟩
    obtain ⟨r, hr, hrk⟩ := (hmemS k0).mp hk0
    have : r ∈ t.filter (fun r => (keyA r, keyB r) = k0) :=
      List.mem_filter.mpr ⟨hr, by simp [hrk]⟩
    rw [hn]
    exact List.length_pos.mpr (fun hnil => by simp [hnil] at this)
  · simp [pivotFillZero, List.map_map, Function.comp_def]
  · intro a cols hac
    rcases List.mem_map.mp hac with ⟨a0, ha0, heq⟩
    have haa : a0 = a := congrArg Prod.fst heq
    subst haa
    have hcols : cols = (sortedKeys (t.map keyB)).map (fun b =>
        (b, (t.filter (fun r => keyA r = a0 ∧ keyB r = b)).length)) :=
      (congrArg Prod.snd heq).symm
    subst hcols
    refine ⟨by simp [List.map_map, Function.comp_def], ?_⟩
    intro b n hbn
    rcases List.mem_map.mp hbn with ⟨b0, hb0, heqb⟩
    have hbb : b0 = b := congrArg Prod.fst heqb
    subst hbb
    have hn : n = (t.filter (fun r => keyA r = a0 ∧ keyB r = b0)).length :=
      (congrArg Prod.snd heqb).symm
    refine ⟨hn, ?_⟩
    intro hno
    rw [hn]
    have : t.filter (fun r => keyA r = a0 ∧ keyB r = b0) = [] := by
      rw [List.filter_eq_nil_iff]
      intro r hr
      simp only [decide_eq_true_eq]
      intro hab
      exact hno ⟨r, hr, hab⟩
    rw [this]
    rfl

/-- C7 witness: on the Table [(0,0), (0,1), (0,1)], the observed pair
(0, 1) is reported with its positive count 2. -/
theorem C7_witness :
    (2 : ℕ) = (([((0 : ℕ), (0 : ℕ)), (0, 1), (0, 1)]).filter
      (fun r => (r.1, r.2) = ((0 : ℕ), (1 : ℕ)))).length ∧ 0 < 2 :=
  (C7_countsByTwoKeys [(0, 0), (0, 1), (0, 1)] Prod.fst Prod.snd).1.2.2
    ((0, 1)) 2 (by decide)

theorem nodup_sortedKeys {α : Type} [LinearOrder α] (xs : List α) :
    (sortedKeys xs).Nodup :=
  (List.perm_insertionSort _ _).nodup_iff.mpr (nodup_uniqueFirstSeen xs)

theorem assignColors_map_fst {σ : Type} (palette : List String) :
    ∀ (i : ℕ) (vs : List σ), (assignColors palette i vs).map Prod.fst = vs
  | _, [] => rfl
  | i, v :: vs => by
    simp only [assignColors, List.map_cons, assignColors_map_fst palette (i + 1) vs]

theorem assignColors_color {σ : Type} [DecidableEq σ] (palette : List String) :
    ∀ (i : ℕ) (vs : List σ), vs.Nodup → ∀ v c, (v, c) ∈ assignColors palette i vs →
      c = palette.getD ((i + vs.indexOf v) % palette.length) ""
  | i, [], _, v, c, h => absurd h (List.not_mem_nil _)
  | i, v0 :: vs, hnd, v, c, h => by
    rcases List.mem_cons.mp h with h1 | h1
    · have hv : v = v0 := congrArg Prod.fst h1
      subst hv
      have hc : c = palette.getD (i % palette.length) "" := congrArg Prod.snd h1
      rw [hc, List.indexOf_cons_self, Nat.add_zero]
    · have hvvs : v ∈ vs := by
        have := List.mem_map_of_mem Prod.fst h1
        rwa [assignColors_map_fst palette (i + 1) vs] at this
      have hne : v0 ≠ v := fun hvv => (List.nodup_cons.mp hnd).1 (hvv ▸ hvvs)
      have ih := assignColors_color palette (i + 1) vs (List.nodup_cons.mp hnd).2 v c h1
      rw [List.indexOf_cons_ne vs hne,
        show i + (List.indexOf v vs).succ = i + 1 + List.indexOf v vs from by omega]
      exact ih

/-- C9 counterexample: on the series values [1, 0] with the two-entry
palette ["c0", "c1"], the categorical-features projector assigns colors by
SORTED position (value 0 gets "c0"), not by first-seen position (which
would give value 1 "c0"), so the claim's single first-seen rule does not
hold for `plot_categorical_features_target`. -/
theorem C9_counterexample :
    colorsCategoricalTarget ([1, 0] : List ℕ) ["c0", "c1"] ≠
      assignColors ["c0", "c1"] 0 (uniqueFirstSeen ([1, 0] : List ℕ)) := by
  decide

/-- C9 amended: both chart projectors assign each distinct series value the
palette entry at that value's position in a deterministic order, modulo the
palette length — but the order is the value's FIRST-SEEN position for
`plot_numerical_features_target` (`unique()`), and its SORTED position for
`plot_categorical_features_target` (pandas pivot sorts its columns); each
assignment is a pure function of the input, so repeated calls with the same
Table assign identical colors. -/
theorem C9_color_assignment {σ : Type} [LinearOrder σ] (vals : List σ)
    (palette : List String) :
    ((colorsNumericalTarget vals palette).map Prod.fst = uniqueFirstSeen vals ∧
     (∀ v c, (v, c) ∈ colorsNumericalTarget vals palette →
        c = palette.getD (((uniqueFirstSeen vals).indexOf v) % palette.length) "")) ∧
    ((colorsCategoricalTarget vals palette).map Prod.fst = sortedKeys vals ∧
     (∀ v c, (v, c) ∈ colorsCategoricalTarget vals palette →
        c = palette.getD (((sortedKeys vals).indexOf v) % palette.length) "")) := by
  refine ⟨⟨assignColors_map_fst palette 0 _, ?_⟩, assignColors_map_fst palette 0 _, ?_⟩
  · intro v c hvc
    have := assignColors_color palette 0 (uniqueFirstSeen vals)
      (nodup_uniqueFirstSeen vals) v c hvc
    rwa [Nat.zero_add] at this
  · intro v c hvc
    have := assignColors_color palette 0 (sortedKeys vals)
      (nodup_sortedKeys vals) v c hvc
    rwa [Nat.zero_add] at this

/-- C9 witness: with series values [1, 0] and palette ["c0", "c1"], the
categorical projector gives value 0 the palette entry at its sorted
position. -/
theorem C9_witness :
    ("c0" : String) = (["c0", "c1"] : List String).getD
      (((sortedKeys ([1, 0] : List ℕ)).indexOf 0) % (["c0", "c1"] : List String).length)
      "" :=
  (C9_color_assignment ([1, 0] : List ℕ) ["c0", "c1"]).2.2 0 "c0" (by decide)

end Dash1
